import Mathlib

/-!
Verification of the bounded priority FIFO queue implemented in `src/queue.c`
of the ELE430 producer-consumer coursework repository.

The queue is a circular buffer (`items`, `capacity`, `size`, `head`, `tail`)
protected by a mutex, with two condition variables and a global `timeout_flag`
acting as the cancellation token.  We embed the queue state and each operation
as pure Lean functions; the blocking waits of the C code are embedded
sequentially: an operation that would suspend on a condition variable returns
the `blocked` outcome and leaves the state unchanged, an operation that
observes the cancellation flag returns `cancelled`, mirroring the exact order
of the checks in the C source.
-/

/-- One message in the queue; mirrors `QueueItem` in `queue.h`.
`timestamp` is carried as an opaque payload (the queue never computes with
it), so we embed it as an integer. -/
structure QueueItem where
  value : Int
  priority : Int
  producer_id : Int
  timestamp : Int
  sequence : Int
deriving DecidableEq, Repr

instance : Inhabited QueueItem := ⟨⟨0, 0, 0, 0, 0⟩⟩

/-- The queue state; mirrors `Queue` in `queue.h` (the mutex and condition
variables have no sequential content).  `items` is the backing array, of
length `capacity` for every queue produced by `queue_init`. -/
structure Queue where
  items : List QueueItem
  capacity : Nat
  size : Nat
  head : Nat
  tail : Nat
deriving DecidableEq, Repr

/-- `queue_is_full` from `queue.c`. -/
def queue_is_full (q : Queue) : Bool :=
  q.size == q.capacity

/-- `queue_is_empty` from `queue.c`. -/
def queue_is_empty (q : Queue) : Bool :=
  q.size == 0

/-- `queue_get_size` from `queue.c` (the lock has no sequential content). -/
def queue_get_size (q : Queue) : Nat :=
  q.size

/-- Outcome of `queue_enqueue`: the C call either suspends on `not_full`
(`blocked`), returns -1 after seeing `timeout_flag` (`cancelled`), or
returns 0 (`ok`). -/
inductive EnqOutcome where
  | blocked
  | cancelled
  | ok
deriving DecidableEq, Repr

/-- Outcome of `queue_dequeue`: suspend on `not_empty` (`blocked`),
return -1 after seeing `timeout_flag` (`cancelled`), the defensive
`remove_idx == -1` branch (`err`), or success carrying the item (`ok`). -/
inductive DeqOutcome where
  | blocked
  | cancelled
  | err
  | ok (item : QueueItem)
deriving DecidableEq, Repr

/-- `queue_enqueue` from `queue.c`.  `flag` is the global `timeout_flag`.
The C code first waits while `queue_is_full(q) && !timeout_flag`, then fails
with -1 if `timeout_flag` is set, and otherwise stores the item at `tail`,
advances `tail` modulo `capacity` and increments `size`. -/
def queue_enqueue (flag : Bool) (q : Queue) (item : QueueItem) : EnqOutcome × Queue :=
  if queue_is_full q && !flag then
    (.blocked, q)
  else if flag then
    (.cancelled, q)
  else
    (.ok, { q with
              items := q.items.set q.tail item,
              tail := (q.tail + 1) % q.capacity,
              size := q.size + 1 })

/-- The `for` loop of `find_highest_priority_index`: `n` iterations remain,
`idx` is the cursor, `hidx`/`hp` are `highest_idx`/`highest_priority`.
The comparison is strict (`>`), so the first slot attaining the maximum
priority is kept. -/
def fhpLoop (q : Queue) : Nat → Nat → Nat → Int → Nat × Int
  | 0, _, hidx, hp => (hidx, hp)
  | n + 1, idx, hidx, hp =>
      let p := (q.items.getD idx default).priority
      if hp < p then
        fhpLoop q n ((idx + 1) % q.capacity) idx p
      else
        fhpLoop q n ((idx + 1) % q.capacity) hidx hp

/-- `find_highest_priority_index` from `queue.c`: -1 on an empty queue,
otherwise the raw buffer index of the highest-priority slot, scanning the
`size` occupied slots starting from `head`. -/
def find_highest_priority_index (q : Queue) : Int :=
  if queue_is_empty q then
    -1
  else
    ((fhpLoop q q.size q.head q.head (q.items.getD q.head default).priority).1 : Nat)

/-- The shifting `for` loop of `remove_at_index`: each step copies the slot
after `current` (modulo `capacity`) into `current` and advances. -/
def shiftLoop (cap : Nat) : List QueueItem → Nat → Nat → List QueueItem
  | items, _, 0 => items
  | items, current, n + 1 =>
      let next := (current + 1) % cap
      shiftLoop cap (items.set current (items.getD next default)) next n

/-- `remove_at_index` from `queue.c`: computes the number of slots between
`remove_idx` and the tail, shifts them back by one, retreats `tail` and
decrements `size`.  The C tail update `(q->tail - 1 + q->capacity) % q->capacity`
is rendered as `((tail + capacity) - 1) % capacity`, identical on all
machine states since `tail + capacity ≥ 1`.  `shifts` is a natural number:
in the one branch where the C `int` expression could go negative the loop
runs zero times either way. -/
def remove_at_index (q : Queue) (remove_idx : Nat) : Queue :=
  let shifts : Nat :=
    if q.head ≤ remove_idx then
      if remove_idx < q.tail then q.tail - remove_idx - 1
      else (q.capacity - remove_idx) + q.tail - 1
    else
      q.tail - remove_idx - 1
  { q with
      items := shiftLoop q.capacity q.items remove_idx shifts,
      tail := ((q.tail + q.capacity) - 1) % q.capacity,
      size := q.size - 1 }

/-- `queue_dequeue` from `queue.c`.  After the wait loop and the cancellation
check, the highest-priority slot is located; if it is the head the head
pointer advances, otherwise `remove_at_index` compacts the buffer. -/
def queue_dequeue (flag : Bool) (q : Queue) : DeqOutcome × Queue :=
  if queue_is_empty q && !flag then
    (.blocked, q)
  else if flag then
    (.cancelled, q)
  else
    let ridx := find_highest_priority_index q
    if ridx = -1 then
      (.err, q)
    else
      let remove_idx := ridx.toNat
      let item := q.items.getD remove_idx default
      if remove_idx = q.head then
        (.ok item, { q with head := (q.head + 1) % q.capacity, size := q.size - 1 })
      else
        (.ok item, remove_at_index q remove_idx)

/-- Which resource acquisitions fail inside `queue_init` (malloc of the
struct, malloc of the item array, `pthread_mutex_init`, the two
`pthread_cond_init` calls). -/
structure InitEnv where
  allocQueueFails : Bool
  allocItemsFails : Bool
  mutexInitFails : Bool
  condNotFullFails : Bool
  condNotEmptyFails : Bool
deriving DecidableEq, Repr

/-- The five resources `queue_init` acquires. -/
inductive Resource where
  | queueStruct
  | itemsArray
  | mutex
  | condNotFull
  | condNotEmpty
deriving DecidableEq, Repr

/-- `queue_init` from `queue.c`: rejects `capacity <= 0 || capacity > 20`,
then acquires the five resources in order, releasing everything already
acquired when one fails.  Returns the constructed queue (or `none`)
together with the list of resources acquired and the list released. -/
def queue_init (env : InitEnv) (capacity : Int) :
    Option Queue × List Resource × List Resource :=
  if capacity ≤ 0 || 20 < capacity then
    (none, [], [])
  else if env.allocQueueFails then
    (none, [], [])
  else if env.allocItemsFails then
    (none, [.queueStruct], [.queueStruct])
  else if env.mutexInitFails then
    (none, [.queueStruct, .itemsArray], [.itemsArray, .queueStruct])
  else if env.condNotFullFails then
    (none, [.queueStruct, .itemsArray, .mutex], [.mutex, .itemsArray, .queueStruct])
  else if env.condNotEmptyFails then
    (none, [.queueStruct, .itemsArray, .mutex, .condNotFull],
      [.condNotFull, .mutex, .itemsArray, .queueStruct])
  else
    (some { items := List.replicate capacity.toNat default,
            capacity := capacity.toNat, size := 0, head := 0, tail := 0 },
      [.queueStruct, .itemsArray, .mutex, .condNotFull, .condNotEmpty], [])

/-- The environment in which every resource acquisition succeeds. -/
def noFailEnv : InitEnv :=
  ⟨false, false, false, false, false⟩

/-- Lines `queue_init` writes (stderr error reports, and the `DEBUG_MODE`
trace on success; `DEBUG_MODE` comes from `config.h`, kept as a parameter). -/
def queue_init_out (debugMode : Bool) (env : InitEnv) (capacity : Int) : List String :=
  if capacity ≤ 0 || 20 < capacity then
    ["Error: Invalid queue capacity"]
  else if env.allocQueueFails then
    ["Error: Failed to allocate memory for queue structure"]
  else if env.allocItemsFails then
    ["Error: Failed to allocate memory for queue items"]
  else if env.mutexInitFails then
    ["Error: Failed to initialize queue mutex"]
  else if env.condNotFullFails then
    ["Error: Failed to initialize not_full condition variable"]
  else if env.condNotEmptyFails then
    ["Error: Failed to initialize not_empty condition variable"]
  else if debugMode then
    ["[QUEUE] Initialized queue"]
  else
    []

/-- Lines `queue_enqueue` writes on a non-NULL queue: nothing unless the
success path runs with `DEBUG_MODE` enabled. -/
def queue_enqueue_out (debugMode flag : Bool) (q : Queue) : List String :=
  if queue_is_full q && !flag then
    []
  else if flag then
    []
  else if debugMode then
    ["[QUEUE] Enqueued"]
  else
    []

/-- Lines `queue_dequeue` writes on non-NULL arguments: nothing unless the
success path runs with `DEBUG_MODE` enabled. -/
def queue_dequeue_out (debugMode flag : Bool) (q : Queue) : List String :=
  if queue_is_empty q && !flag then
    []
  else if flag then
    []
  else if find_highest_priority_index q = -1 then
    []
  else if debugMode then
    ["[QUEUE] Dequeued"]
  else
    []

/-- `queue_get_size` prints nothing. -/
def queue_get_size_out (_q : Queue) : List String :=
  []

/-- Lines `queue_destroy` writes: only its two `DEBUG_MODE` traces. -/
def queue_destroy_out (debugMode : Bool) : List String :=
  if debugMode then
    ["[QUEUE] Destroying queue and releasing resources...",
     "[QUEUE] Queue resources released"]
  else
    []

/-- Structural invariant of the circular buffer: the backing array has
length `capacity`, `head` is in range, at most `capacity` slots are
occupied, and `tail` is `head + size` modulo `capacity`. -/
def QInv (q : Queue) : Prop :=
  q.items.length = q.capacity ∧ q.head < q.capacity ∧
    q.size ≤ q.capacity ∧ q.tail = (q.head + q.size) % q.capacity

instance (q : Queue) : Decidable (QInv q) := by
  unfold QInv; infer_instance

/-- The occupied slots read in arrival order: logical position `j` of the
queue lives at buffer index `(head + j) % capacity`. -/
def contents (q : Queue) : List QueueItem :=
  (List.range q.size).map (fun j => q.items.getD ((q.head + j) % q.capacity) default)

/-- Priority stored at logical position `j`. -/
def prAt (q : Queue) (j : Nat) : Int :=
  (q.items.getD ((q.head + j) % q.capacity) default).priority

/-- One worker operation on the shared queue: a blocking insert or a
blocking remove, each observing the current value of `timeout_flag`. -/
inductive Op where
  | enq (flag : Bool) (item : QueueItem)
  | deq (flag : Bool)
deriving DecidableEq, Repr

/-- The cancellation flag an operation observes. -/
def Op.flagOf : Op → Bool
  | .enq f _ => f
  | .deq f => f

/-- State reached after one operation (outcome discarded). -/
def stepQ (q : Queue) : Op → Queue
  | .enq f it => (queue_enqueue f q it).2
  | .deq f => (queue_dequeue f q).2

/-- State reached after a sequence of operations. -/
def runQ (q : Queue) (ops : List Op) : Queue :=
  ops.foldl stepQ q

/-- Run a sequence of operations, also accumulating the items successfully
inserted and the items successfully removed. -/
def runTrace : List Op → Queue × List QueueItem × List QueueItem →
    Queue × List QueueItem × List QueueItem
  | [], s => s
  | op :: ops, (q, ins, outs) =>
      match op with
      | .enq f it =>
          match queue_enqueue f q it with
          | (.ok, q2) => runTrace ops (q2, ins ++ [it], outs)
          | (_, q2) => runTrace ops (q2, ins, outs)
      | .deq f =>
          match queue_dequeue f q with
          | (.ok it, q2) => runTrace ops (q2, ins, outs ++ [it])
          | (_, q2) => runTrace ops (q2, ins, outs)


/-- Items of the FIFO tie-break scenario from the specification:
A and B share priority 3, C has priority 5. -/
def itemA : QueueItem :=
  ⟨1, 3, 1, 0, 1⟩

/-- Second item of the tie-break scenario. -/
def itemB : QueueItem :=
  ⟨2, 3, 1, 0, 2⟩

/-- Third item of the tie-break scenario. -/
def itemC : QueueItem :=
  ⟨3, 5, 1, 0, 3⟩

/-- The queue `queue_init` builds for capacity 5 with no resource failure. -/
def demoStart : Queue :=
  ((queue_init noFailEnv 5).1).getD ⟨[], 0, 0, 0, 0⟩

/-- Item carried by a successful dequeue outcome. -/
def deqItem : DeqOutcome → QueueItem
  | .ok it => it
  | _ => default

/-- State after enqueueing A, B, C (in that order) into the fresh queue. -/
def demoQ3 : Queue :=
  (queue_enqueue false
    (queue_enqueue false
      (queue_enqueue false demoStart itemA).2 itemB).2 itemC).2

/-- The three items returned by dequeueing three times after inserting
A(priority 3), B(priority 3), C(priority 5). -/
def demoDequeues : List QueueItem :=
  let p1 := queue_dequeue false demoQ3
  let p2 := queue_dequeue false p1.2
  let p3 := queue_dequeue false p2.2
  [deqItem p1.1, deqItem p2.1, deqItem p3.1]

/-- A wrapped ring-buffer state (head 2 in a capacity-4 buffer holding 4
items), used as a concrete witness input. -/
def demoWrapped : Queue :=
  ⟨[⟨30, 1, 0, 0, 3⟩, ⟨40, 9, 0, 0, 4⟩, ⟨10, 1, 0, 0, 1⟩, ⟨20, 9, 0, 0, 2⟩], 4, 4, 2, 2⟩

/-- Environment in which the first malloc fails. -/
def allocFailEnv : InitEnv :=
  ⟨true, false, false, false, false⟩

/-! ### Basic helpers -/

theorem getD_set_self (l : List QueueItem) (i : Nat) (a : QueueItem) (h : i < l.length) :
    (l.set i a).getD i default = a := by
  simp [List.getD_eq_getElem?_getD, List.getElem?_set_self h]

theorem getD_set_ne (l : List QueueItem) (i j : Nat) (a : QueueItem) (h : i ≠ j) :
    (l.set i a).getD j default = l.getD j default := by
  simp [List.getD_eq_getElem?_getD, List.getElem?_set_ne h]

theorem getD_eq_get (l : List QueueItem) (n : Nat) (h : n < l.length) :
    l.getD n default = l[n] := by
  simp [List.getD_eq_getElem?_getD, List.getElem?_eq_getElem h]

/-- Value of `(h + a) % cap` when both summands are below `cap`. -/
theorem add_mod_eq_of_lt (cap h a : Nat) (hh : h < cap) (ha : a < cap) :
    (h + a) % cap = if h + a < cap then h + a else (h + a) - cap := by
  split
  · exact Nat.mod_eq_of_lt (by omega)
  · rw [Nat.mod_eq_sub_mod (by omega)]
    exact Nat.mod_eq_of_lt (by omega)

/-- The map from logical positions to buffer indices is injective below `cap`. -/
theorem pos_mod_inj (cap h a b : Nat) (hh : h < cap) (ha : a < cap) (hb : b < cap)
    (heq : (h + a) % cap = (h + b) % cap) : a = b := by
  rw [add_mod_eq_of_lt cap h a hh ha, add_mod_eq_of_lt cap h b hh hb] at heq
  split at heq <;> split at heq <;> omega

/-- A window index collides with its own base only at offset zero. -/
theorem mod_window_eq_self (cap h a : Nat) (hh : h < cap) (ha : a < cap) :
    (h + a) % cap = h ↔ a = 0 := by
  rw [add_mod_eq_of_lt cap h a hh ha]
  split <;> omega

theorem shiftLoop_length (cap : Nat) :
    ∀ (s : Nat) (items : List QueueItem) (current : Nat),
      (shiftLoop cap items current s).length = items.length := by
  intro s
  induction s with
  | zero => intro items current; rfl
  | succ n ih =>
      intro items current
      simp only [shiftLoop, ih, List.length_set]

/-- Effect of the shifting loop on each buffer slot: the `s` slots starting
at `current` receive the value of their successor slot, everything else is
untouched.  Requires `s < cap` (true at the call site inside
`remove_at_index`) so that reads never see an already-overwritten slot. -/
theorem shiftLoop_getD (cap : Nat) :
    ∀ (s : Nat), s < cap → ∀ (items : List QueueItem) (current p : Nat),
      current < cap → p < cap → items.length = cap →
      ((∃ t, t < s ∧ p = (current + t) % cap) →
          (shiftLoop cap items current s).getD p default
            = items.getD ((p + 1) % cap) default) ∧
      ((¬ ∃ t, t < s ∧ p = (current + t) % cap) →
          (shiftLoop cap items current s).getD p default = items.getD p default) := by
  intro s
  induction s with
  | zero =>
      intro _ items current p _ _ _
      exact ⟨fun ⟨t, ht, _⟩ => absurd ht (Nat.not_lt_zero t), fun _ => rfl⟩
  | succ n ih =>
      intro hs items current p hcur hp hlen
      have hcap : 0 < cap := by omega
      have hnext : (current + 1) % cap < cap := Nat.mod_lt _ hcap
      have hlen1 : (items.set current (items.getD ((current + 1) % cap) default)).length = cap := by
        simp [hlen]
      have ihspec := ih (by omega) (items.set current (items.getD ((current + 1) % cap) default))
        ((current + 1) % cap) p hnext hp hlen1
      have hstep : shiftLoop cap items current (n + 1)
          = shiftLoop cap (items.set current (items.getD ((current + 1) % cap) default))
              ((current + 1) % cap) n := rfl
      have hshift_mem : ∀ t, ((current + 1) % cap + t) % cap = (current + (t + 1)) % cap := by
        intro t
        rw [Nat.mod_add_mod]
        ring_nf
      constructor
      · rintro ⟨t, ht, hpt⟩
        by_cases hp0 : p = current
        · -- the slot written by this iteration; untouched by the recursion
          have hnotin : ¬ ∃ u, u < n ∧ p = ((current + 1) % cap + u) % cap := by
            rintro ⟨u, hu, hcu⟩
            rw [hshift_mem u, hp0] at hcu
            have := (mod_window_eq_self cap current (u + 1) hcur (by omega)).mp hcu.symm
            omega
          rw [hstep, ihspec.2 hnotin, hp0,
              getD_set_self items current _ (by omega)]
        · -- a slot strictly inside the recursive window
          have ht0 : t ≠ 0 := by
            intro h0
            subst h0
            rw [Nat.add_zero, Nat.mod_eq_of_lt hcur] at hpt
            exact hp0 hpt
          obtain ⟨u, rfl⟩ : ∃ u, t = u + 1 := ⟨t - 1, by omega⟩
          have hin : ∃ v, v < n ∧ p = ((current + 1) % cap + v) % cap :=
            ⟨u, by omega, by rw [hshift_mem u]; exact hpt⟩
          have hpun : current ≠ (p + 1) % cap := by
            intro hc
            have h2 : (p + 1) % cap = (current + (u + 1) + 1) % cap := by
              rw [hpt, Nat.mod_add_mod]
            have h3 : current + (u + 1) + 1 = current + (u + 1 + 1) := by omega
            have h1 : (current + (u + 1 + 1)) % cap = current := by
              rw [← h3, ← h2, ← hc]
            have := (mod_window_eq_self cap current (u + 1 + 1) hcur (by omega)).mp h1
            omega
          rw [hstep, ihspec.1 hin, getD_set_ne items current _ _ hpun]
      · intro hnotin
        have hp0 : current ≠ p := by
          intro hc
          exact hnotin ⟨0, by omega, by rw [Nat.add_zero, Nat.mod_eq_of_lt hcur, hc]⟩
        have hnotin1 : ¬ ∃ u, u < n ∧ p = ((current + 1) % cap + u) % cap := by
          rintro ⟨u, hu, hpu⟩
          rw [hshift_mem u] at hpu
          exact hnotin ⟨u + 1, by omega, hpu⟩
        rw [hstep, ihspec.2 hnotin1, getD_set_ne items current _ _ hp0]

theorem contents_length (q : Queue) : (contents q).length = q.size := by
  simp [contents]

theorem contents_getElem (q : Queue) (k : Nat) (hk : k < (contents q).length) :
    (contents q)[k] = q.items.getD ((q.head + k) % q.capacity) default := by
  simp [contents]

/-- The `shifts` expression of `remove_at_index`, evaluated at the buffer
index of logical position `j`, counts exactly the occupied slots strictly
after position `j`. -/
theorem shifts_eq (q : Queue) (hq : QInv q) (j : Nat) (hj1 : 1 ≤ j) (hj : j < q.size) :
    (if q.head ≤ (q.head + j) % q.capacity then
       if (q.head + j) % q.capacity < q.tail then q.tail - (q.head + j) % q.capacity - 1
       else (q.capacity - (q.head + j) % q.capacity) + q.tail - 1
     else q.tail - (q.head + j) % q.capacity - 1) = q.size - j - 1 := by
  obtain ⟨hlen, hh, hsz, ht⟩ := hq
  have hr := add_mod_eq_of_lt q.capacity q.head j hh (by omega)
  have htv : q.tail
      = if q.head + q.size < q.capacity then q.head + q.size
        else q.head + q.size - q.capacity := by
    rw [ht]
    split
    · exact Nat.mod_eq_of_lt (by omega)
    · rw [Nat.mod_eq_sub_mod (by omega)]
      exact Nat.mod_eq_of_lt (by omega)
  rw [hr, htv]
  split_ifs <;> omega

/-- A successful enqueue appends the item at the logical tail and keeps the
structural invariant. -/
theorem enqueue_spec (q : Queue) (hq : QInv q) (item : QueueItem)
    (hnf : q.size < q.capacity) :
    (queue_enqueue false q item).1 = EnqOutcome.ok ∧
      QInv (queue_enqueue false q item).2 ∧
      contents (queue_enqueue false q item).2 = contents q ++ [item] ∧
      (queue_enqueue false q item).2.capacity = q.capacity ∧
      (queue_enqueue false q item).2.size = q.size + 1 ∧
      (queue_enqueue false q item).2.head = q.head := by
  obtain ⟨hlen, hh, hsz, ht⟩ := hq
  have hcap : 0 < q.capacity := by omega
  have hfull : queue_is_full q = false := by
    simp [queue_is_full]
    omega
  have hq2 : queue_enqueue false q item
      = (.ok, { q with
                  items := q.items.set q.tail item,
                  tail := (q.tail + 1) % q.capacity,
                  size := q.size + 1 }) := by
    simp [queue_enqueue, hfull]
  rw [hq2]
  have htl : q.tail < q.capacity := by
    rw [ht]; exact Nat.mod_lt _ hcap
  refine ⟨rfl, ⟨by simp [hlen], by simpa using hh, by simpa using (by omega : q.size + 1 ≤ q.capacity), ?_⟩, ?_, rfl, rfl, rfl⟩
  · show (q.tail + 1) % q.capacity = (q.head + (q.size + 1)) % q.capacity
    rw [ht, Nat.mod_add_mod]
    have h3 : q.head + q.size + 1 = q.head + (q.size + 1) := by omega
    rw [h3]
  · show (List.range (q.size + 1)).map
        (fun j => (q.items.set q.tail item).getD ((q.head + j) % q.capacity) default)
      = contents q ++ [item]
    rw [List.range_succ, List.map_append]
    congr 1
    · refine List.map_congr_left ?_
      intro k hk
      rw [List.mem_range] at hk
      have hne : q.tail ≠ (q.head + k) % q.capacity := by
        rw [ht]
        intro hc
        have := pos_mod_inj q.capacity q.head q.size k hh (by omega) (by omega) hc
        omega
      exact getD_set_ne _ _ _ _ hne
    · show [(q.items.set q.tail item).getD ((q.head + q.size) % q.capacity) default] = [item]
      rw [← ht, getD_set_self _ _ _ (by omega)]

/-- Removing the logical head (the `remove_idx == q->head` branch of
`queue_dequeue`) erases position 0 of the contents and keeps the invariant. -/
theorem dequeue_head_spec (q : Queue) (hq : QInv q) (hpos : 0 < q.size) :
    QInv { q with head := (q.head + 1) % q.capacity, size := q.size - 1 } ∧
      contents { q with head := (q.head + 1) % q.capacity, size := q.size - 1 }
        = (contents q).eraseIdx 0 := by
  obtain ⟨hlen, hh, hsz, ht⟩ := hq
  have hcap : 0 < q.capacity := by omega
  constructor
  · refine ⟨hlen, Nat.mod_lt _ hcap, (by omega : q.size - 1 ≤ q.capacity), ?_⟩
    show q.tail = ((q.head + 1) % q.capacity + (q.size - 1)) % q.capacity
    rw [Nat.mod_add_mod, ht]
    congr 1
    omega
  · apply List.ext_getElem
    · rw [contents_length, List.length_eraseIdx_of_lt (by rw [contents_length]; omega)]
      rw [contents_length]
    · intro k hk1 hk2
      have hks : k < q.size - 1 := by
        rw [contents_length] at hk1
        exact hk1
      rw [contents_getElem, List.getElem_eraseIdx_of_ge _ _ _ _ (by omega),
          contents_getElem]
      show q.items.getD (((q.head + 1) % q.capacity + k) % q.capacity) default
          = q.items.getD ((q.head + (k + 1)) % q.capacity) default
      rw [Nat.mod_add_mod]
      congr 2
      omega

/-- Removing a non-head slot via `remove_at_index` erases position `j` of
the contents and keeps the invariant. -/
theorem remove_at_index_spec (q : Queue) (hq : QInv q) (j : Nat)
    (hj1 : 1 ≤ j) (hj : j < q.size) :
    QInv (remove_at_index q ((q.head + j) % q.capacity)) ∧
      contents (remove_at_index q ((q.head + j) % q.capacity))
        = (contents q).eraseIdx j ∧
      (remove_at_index q ((q.head + j) % q.capacity)).head = q.head ∧
      (remove_at_index q ((q.head + j) % q.capacity)).capacity = q.capacity ∧
      (remove_at_index q ((q.head + j) % q.capacity)).size = q.size - 1 ∧
      (remove_at_index q ((q.head + j) % q.capacity)).tail
        = ((q.tail + q.capacity) - 1) % q.capacity := by
  obtain ⟨hlen, hh, hsz, ht⟩ := hq
  have hcap : 0 < q.capacity := by omega
  have hcap2 : 2 ≤ q.capacity := by omega
  have hrw : remove_at_index q ((q.head + j) % q.capacity)
      = { q with
            items := shiftLoop q.capacity q.items ((q.head + j) % q.capacity) (q.size - j - 1),
            tail := ((q.tail + q.capacity) - 1) % q.capacity,
            size := q.size - 1 } := by
    unfold remove_at_index
    rw [shifts_eq q ⟨hlen, hh, hsz, ht⟩ j hj1 hj]
  rw [hrw]
  have hs : q.size - j - 1 < q.capacity := by omega
  have hrlt : (q.head + j) % q.capacity < q.capacity := Nat.mod_lt _ hcap
  refine ⟨⟨by rw [shiftLoop_length]; exact hlen, by simpa using hh, (by omega : q.size - 1 ≤ q.capacity), ?_⟩, ?_, rfl, rfl, rfl, rfl⟩
  · show ((q.tail + q.capacity) - 1) % q.capacity = (q.head + (q.size - 1)) % q.capacity
    have h1 : (q.tail + q.capacity) - 1 = q.tail + (q.capacity - 1) := by omega
    rw [h1, ht, Nat.mod_add_mod]
    have h2 : q.head + q.size + (q.capacity - 1) = (q.head + (q.size - 1)) + q.capacity := by
      omega
    rw [h2, Nat.add_mod_right]
  · apply List.ext_getElem
    · rw [contents_length, List.length_eraseIdx_of_lt (by rw [contents_length]; omega)]
      rw [contents_length]
    · intro k hk1 hk2
      have hks : k < q.size - 1 := by
        rw [contents_length] at hk1
        exact hk1
      have hpk : (q.head + k) % q.capacity < q.capacity := Nat.mod_lt _ hcap
      have hspec := shiftLoop_getD q.capacity (q.size - j - 1) hs q.items
        ((q.head + j) % q.capacity) ((q.head + k) % q.capacity) hrlt hpk hlen
      rw [contents_getElem]
      show (shiftLoop q.capacity q.items ((q.head + j) % q.capacity) (q.size - j - 1)).getD
          ((q.head + k) % q.capacity) default = ((contents q).eraseIdx j)[k]
      rcases Nat.lt_or_ge k j with hkj | hkj
      · -- slot before the erased position: untouched
        have hnot : ¬ ∃ t, t < q.size - j - 1 ∧
            (q.head + k) % q.capacity = ((q.head + j) % q.capacity + t) % q.capacity := by
          rintro ⟨t, htl, heq⟩
          rw [Nat.mod_add_mod] at heq
          have h3 : q.head + j + t = q.head + (j + t) := by omega
          rw [h3] at heq
          have := pos_mod_inj q.capacity q.head k (j + t) hh (by omega) (by omega) heq
          omega
        rw [hspec.2 hnot, List.getElem_eraseIdx_of_lt _ _ _ _ hkj, contents_getElem]
      · -- slot at or after the erased position: receives its successor
        have hin : ∃ t, t < q.size - j - 1 ∧
            (q.head + k) % q.capacity = ((q.head + j) % q.capacity + t) % q.capacity := by
          refine ⟨k - j, by omega, ?_⟩
          rw [Nat.mod_add_mod]
          congr 1
          omega
        rw [hspec.1 hin, List.getElem_eraseIdx_of_ge _ _ _ _ hkj, contents_getElem]
        rw [Nat.mod_add_mod]
        have h3 : q.head + k + 1 = q.head + (k + 1) := by omega
        rw [h3]

/-- Loop invariant of the scan in `find_highest_priority_index`: having
processed logical positions `0..t-1` with current best position `j` (the
earliest position attaining the maximum priority so far), running the
remaining `n` iterations yields the earliest position attaining the overall
maximum priority. -/
theorem fhpLoop_spec (q : Queue) :
    ∀ n t j, t + n = q.size → 1 ≤ t → j < t →
      (∀ k, k < t → prAt q k ≤ prAt q j) →
      (∀ k, k < j → prAt q k < prAt q j) →
      ∃ j2, j2 < q.size ∧
        fhpLoop q n ((q.head + t) % q.capacity) ((q.head + j) % q.capacity) (prAt q j)
          = ((q.head + j2) % q.capacity, prAt q j2) ∧
        (∀ k, k < q.size → prAt q k ≤ prAt q j2) ∧
        (∀ k, k < j2 → prAt q k < prAt q j2) := by
  intro n
  induction n with
  | zero =>
      intro t j hts ht1 hjt hmax hfirst
      exact ⟨j, by omega, rfl, fun k hk => hmax k (by omega), hfirst⟩
  | succ m ih =>
      intro t j hts ht1 hjt hmax hfirst
      have hstep : fhpLoop q (m + 1) ((q.head + t) % q.capacity)
            ((q.head + j) % q.capacity) (prAt q j)
          = if prAt q j < prAt q t then
              fhpLoop q m (((q.head + t) % q.capacity + 1) % q.capacity)
                ((q.head + t) % q.capacity) (prAt q t)
            else
              fhpLoop q m (((q.head + t) % q.capacity + 1) % q.capacity)
                ((q.head + j) % q.capacity) (prAt q j) := rfl
      rw [hstep]
      by_cases hcase : prAt q j < prAt q t
      · rw [if_pos hcase, Nat.mod_add_mod]
        refine ih (t + 1) t (by omega) (by omega) (by omega) ?_ ?_
        · intro k hk
          rcases Nat.lt_or_ge k t with hk2 | hk2
          · exact le_trans (hmax k hk2) (le_of_lt hcase)
          · have : k = t := by omega
            subst this
            exact le_refl _
        · intro k hk
          rcases Nat.lt_or_ge k j with hk2 | hk2
          · exact lt_trans (hfirst k hk2) hcase
          · exact lt_of_le_of_lt (hmax k (by omega)) hcase
      · rw [if_neg hcase, Nat.mod_add_mod]
        refine ih (t + 1) j (by omega) (by omega) (by omega) ?_ hfirst
        intro k hk
        rcases Nat.lt_or_ge k t with hk2 | hk2
        · exact hmax k hk2
        · have : k = t := by omega
          subst this
          exact le_of_not_lt hcase

/-- `find_highest_priority_index` on a non-empty queue returns the buffer
index of the earliest occupied slot attaining the maximum priority. -/
theorem find_highest_spec (q : Queue) (hq : QInv q) (hpos : 0 < q.size) :
    ∃ j, j < q.size ∧
      find_highest_priority_index q = ((q.head + j) % q.capacity : Nat) ∧
      (∀ k, k < q.size → prAt q k ≤ prAt q j) ∧
      (∀ k, k < j → prAt q k < prAt q j) := by
  obtain ⟨hlen, hh, hsz, ht⟩ := hq
  have hcap : 0 < q.capacity := by omega
  have hne : queue_is_empty q = false := by
    simp [queue_is_empty]
    omega
  obtain ⟨m, hm⟩ : ∃ m, q.size = m + 1 := ⟨q.size - 1, by omega⟩
  have h0 : (q.head + 0) % q.capacity = q.head := by
    rw [Nat.add_zero]
    exact Nat.mod_eq_of_lt hh
  have hpr0 : prAt q 0 = (q.items.getD q.head default).priority := by
    rw [prAt, h0]
  have hinit : fhpLoop q q.size q.head q.head ((q.items.getD q.head default).priority)
      = fhpLoop q m ((q.head + 1) % q.capacity) q.head (prAt q 0) := by
    rw [hm, hpr0]
    show (if (q.items.getD q.head default).priority < (q.items.getD q.head default).priority
          then fhpLoop q m ((q.head + 1) % q.capacity) q.head
                 ((q.items.getD q.head default).priority)
          else fhpLoop q m ((q.head + 1) % q.capacity) q.head
                 ((q.items.getD q.head default).priority))
        = fhpLoop q m ((q.head + 1) % q.capacity) q.head
            ((q.items.getD q.head default).priority)
    rw [if_neg (lt_irrefl _)]
  obtain ⟨j2, hj2, heq, hmax, hfirst⟩ :=
    fhpLoop_spec q m 1 0 (by omega) (le_refl 1) (by omega)
      (by
        intro k hk
        have : k = 0 := by omega
        subst this
        exact le_refl _)
      (by omega)
  refine ⟨j2, hj2, ?_, hmax, hfirst⟩
  rw [find_highest_priority_index, if_neg (by rw [hne]; exact Bool.false_ne_true)]
  rw [hinit]
  rw [h0] at heq
  rw [heq]

/-- Full specification of a successful dequeue: it removes the earliest
slot of maximum priority (logical position `j`), erasing exactly that
position from the contents; position 0 is removed by advancing the head,
any other position by compaction. -/
theorem dequeue_spec (q : Queue) (hq : QInv q) (hpos : 0 < q.size) :
    ∃ j, j < q.size ∧
      (queue_dequeue false q).1 = DeqOutcome.ok ((contents q).getD j default) ∧
      QInv (queue_dequeue false q).2 ∧
      contents (queue_dequeue false q).2 = (contents q).eraseIdx j ∧
      (queue_dequeue false q).2.capacity = q.capacity ∧
      (queue_dequeue false q).2.size = q.size - 1 ∧
      (∀ k, k < q.size → prAt q k ≤ prAt q j) ∧
      (∀ k, k < j → prAt q k < prAt q j) ∧
      (j = 0 → (queue_dequeue false q).2.head = (q.head + 1) % q.capacity ∧
               (queue_dequeue false q).2.tail = q.tail) ∧
      (j ≠ 0 → (queue_dequeue false q).2.head = q.head ∧
               (queue_dequeue false q).2.tail = ((q.tail + q.capacity) - 1) % q.capacity) := by
  obtain ⟨j, hj, hfind, hmax, hfirst⟩ := find_highest_spec q hq hpos
  obtain ⟨hlen, hh, hsz, ht⟩ := hq
  have hcap : 0 < q.capacity := by omega
  have hne : queue_is_empty q = false := by
    simp [queue_is_empty]
    omega
  have hnneg : ¬ find_highest_priority_index q = -1 := by
    rw [hfind]
    omega
  have htn : (find_highest_priority_index q).toNat = (q.head + j) % q.capacity := by
    rw [hfind]
    exact Int.toNat_natCast _
  have hitem : q.items.getD ((find_highest_priority_index q).toNat) default
      = (contents q).getD j default := by
    rw [htn, getD_eq_get (contents q) j (by rw [contents_length]; omega), contents_getElem]
  have hdq : queue_dequeue false q
      = if (find_highest_priority_index q).toNat = q.head then
          (DeqOutcome.ok (q.items.getD (find_highest_priority_index q).toNat default),
            { q with head := (q.head + 1) % q.capacity, size := q.size - 1 })
        else
          (DeqOutcome.ok (q.items.getD (find_highest_priority_index q).toNat default),
            remove_at_index q (find_highest_priority_index q).toNat) := by
    unfold queue_dequeue
    rw [hne]
    simp only [Bool.not_false, Bool.false_and, Bool.false_eq_true, if_false]
    rw [if_neg hnneg]
  have hcond : ((find_highest_priority_index q).toNat = q.head) ↔ j = 0 := by
    rw [htn]
    exact mod_window_eq_self q.capacity q.head j hh (by omega)
  refine ⟨j, hj, ?_⟩
  rcases Nat.eq_zero_or_pos j with hj0 | hjpos
  · -- head removal
    have hcondT : (find_highest_priority_index q).toNat = q.head := hcond.mpr hj0
    rw [hdq, if_pos hcondT]
    obtain ⟨hinv2, hcont2⟩ := dequeue_head_spec q ⟨hlen, hh, hsz, ht⟩ hpos
    subst hj0
    exact ⟨by rw [hitem], hinv2, hcont2, rfl, rfl, hmax, hfirst,
      fun _ => ⟨rfl, rfl⟩, fun hc => absurd rfl hc⟩
  · -- compaction removal
    have hcondF : ¬ (find_highest_priority_index q).toNat = q.head := by
      rw [hcond]
      omega
    rw [hdq, if_neg hcondF]
    have hspec := remove_at_index_spec q ⟨hlen, hh, hsz, ht⟩ j (by omega) hj
    rw [htn]
    obtain ⟨hinv2, hcont2, hh2, hc2, hs2, ht2⟩ := hspec
    exact ⟨by rw [← htn, hitem], hinv2, hcont2, hc2, hs2, hmax, hfirst,
      fun hc => absurd hc (by omega), fun _ => ⟨hh2, ht2⟩⟩

/-- Removing position `j` of a list removes one copy of that element from
the underlying multiset. -/
theorem ofList_eraseIdx (l : List QueueItem) (j : Nat) (h : j < l.length) :
    (l : Multiset QueueItem) = (l.getD j default) ::ₘ (l.eraseIdx j : Multiset QueueItem) := by
  rw [getD_eq_get l j h]
  conv_lhs => rw [← List.take_append_drop j l, ← List.getElem_cons_drop l j h]
  rw [List.eraseIdx_eq_take_drop_succ]
  rw [← Multiset.coe_add, ← Multiset.coe_add, ← Multiset.cons_coe, Multiset.add_cons]

theorem queue_enqueue_cancelled_eq (q : Queue) (item : QueueItem) :
    queue_enqueue true q item = (EnqOutcome.cancelled, q) := by
  unfold queue_enqueue
  simp

theorem queue_dequeue_cancelled_eq (q : Queue) :
    queue_dequeue true q = (DeqOutcome.cancelled, q) := by
  unfold queue_dequeue
  simp

theorem queue_enqueue_blocked_eq (q : Queue) (item : QueueItem)
    (h : queue_is_full q = true) :
    queue_enqueue false q item = (EnqOutcome.blocked, q) := by
  unfold queue_enqueue
  simp [h]

theorem queue_dequeue_blocked_eq (q : Queue) (h : queue_is_empty q = true) :
    queue_dequeue false q = (DeqOutcome.blocked, q) := by
  unfold queue_dequeue
  simp [h]

/-- Every single operation preserves the structural invariant and the
capacity. -/
theorem stepQ_inv (q : Queue) (hq : QInv q) (op : Op) :
    QInv (stepQ q op) ∧ (stepQ q op).capacity = q.capacity := by
  cases op with
  | enq f it =>
      show QInv (queue_enqueue f q it).2 ∧ (queue_enqueue f q it).2.capacity = q.capacity
      cases f with
      | true => rw [queue_enqueue_cancelled_eq]; exact ⟨hq, rfl⟩
      | false =>
          by_cases hfull : queue_is_full q = true
          · rw [queue_enqueue_blocked_eq q it hfull]
            exact ⟨hq, rfl⟩
          · have hsz : q.size < q.capacity := by
              have h1 : ¬ q.size = q.capacity := by
                intro hc
                exact hfull (by simp [queue_is_full, hc])
              have := hq.2.2.1
              omega
            obtain ⟨_, hinv, _, hcapeq, _, _⟩ := enqueue_spec q hq it hsz
            exact ⟨hinv, hcapeq⟩
  | deq f =>
      show QInv (queue_dequeue f q).2 ∧ (queue_dequeue f q).2.capacity = q.capacity
      cases f with
      | true => rw [queue_dequeue_cancelled_eq]; exact ⟨hq, rfl⟩
      | false =>
          by_cases hempty : queue_is_empty q = true
          · rw [queue_dequeue_blocked_eq q hempty]
            exact ⟨hq, rfl⟩
          · have hpos : 0 < q.size := by
              have h1 : ¬ q.size = 0 := by
                intro hc
                exact hempty (by simp [queue_is_empty, hc])
              omega
            obtain ⟨j, _, _, hinv, _, hcapeq, _⟩ := dequeue_spec q hq hpos
            exact ⟨hinv, hcapeq⟩

theorem runQ_inv (ops : List Op) :
    ∀ q, QInv q → QInv (runQ q ops) ∧ (runQ q ops).capacity = q.capacity := by
  induction ops with
  | nil => intro q hq; exact ⟨hq, rfl⟩
  | cons op ops ih =>
      intro q hq
      obtain ⟨h1, h2⟩ := stepQ_inv q hq op
      obtain ⟨h3, h4⟩ := ih (stepQ q op) h1
      exact ⟨h3, by rw [runQ] at h4 ⊢; simp only [List.foldl_cons]; omega⟩

/-- Conservation: along any run, the items inserted so far, and the items
removed so far plus the current queue contents, balance as multisets. -/
theorem runTrace_conserves (ops : List Op) :
    ∀ q ins outs, QInv q →
      QInv (runTrace ops (q, ins, outs)).1 ∧
      ((runTrace ops (q, ins, outs)).2.1 : Multiset QueueItem) + (outs : Multiset QueueItem)
          + (contents q : Multiset QueueItem)
        = (ins : Multiset QueueItem) + ((runTrace ops (q, ins, outs)).2.2 : Multiset QueueItem)
          + (contents (runTrace ops (q, ins, outs)).1 : Multiset QueueItem) := by
  induction ops with
  | nil =>
      intro q ins outs hq
      exact ⟨hq, rfl⟩
  | cons op ops ih =>
      intro q ins outs hq
      cases op with
      | enq f it =>
          cases f with
          | true =>
              have hrun : runTrace (Op.enq true it :: ops) (q, ins, outs)
                  = runTrace ops (q, ins, outs) := by
                show (match queue_enqueue true q it with
                      | (.ok, q2) => runTrace ops (q2, ins ++ [it], outs)
                      | (_, q2) => runTrace ops (q2, ins, outs))
                    = runTrace ops (q, ins, outs)
                rw [queue_enqueue_cancelled_eq]
              rw [hrun]
              exact ih q ins outs hq
          | false =>
              by_cases hfull : queue_is_full q = true
              · have hrun : runTrace (Op.enq false it :: ops) (q, ins, outs)
                    = runTrace ops (q, ins, outs) := by
                  show (match queue_enqueue false q it with
                        | (.ok, q2) => runTrace ops (q2, ins ++ [it], outs)
                        | (_, q2) => runTrace ops (q2, ins, outs))
                      = runTrace ops (q, ins, outs)
                  rw [queue_enqueue_blocked_eq q it hfull]
                rw [hrun]
                exact ih q ins outs hq
              · have hsz : q.size < q.capacity := by
                  have h1 : ¬ q.size = q.capacity := by
                    intro hc
                    exact hfull (by simp [queue_is_full, hc])
                  have := hq.2.2.1
                  omega
                obtain ⟨hok, hinv2, hcont2, _, _, _⟩ := enqueue_spec q hq it hsz
                have hpair : queue_enqueue false q it
                    = (EnqOutcome.ok, (queue_enqueue false q it).2) :=
                  Prod.ext hok rfl
                have hrun : runTrace (Op.enq false it :: ops) (q, ins, outs)
                    = runTrace ops ((queue_enqueue false q it).2, ins ++ [it], outs) := by
                  show (match queue_enqueue false q it with
                        | (.ok, q2) => runTrace ops (q2, ins ++ [it], outs)
                        | (_, q2) => runTrace ops (q2, ins, outs))
                      = runTrace ops ((queue_enqueue false q it).2, ins ++ [it], outs)
                  rw [hpair]
                rw [hrun]
                obtain ⟨hI, hE⟩ := ih (queue_enqueue false q it).2 (ins ++ [it]) outs hinv2
                refine ⟨hI, ?_⟩
                rw [hcont2] at hE
                have hsplit1 : ((contents q ++ [it] : List QueueItem) : Multiset QueueItem)
                    = (contents q : Multiset QueueItem) + {it} := by
                  rw [← Multiset.coe_singleton, Multiset.coe_add]
                have hsplit2 : ((ins ++ [it] : List QueueItem) : Multiset QueueItem)
                    = (ins : Multiset QueueItem) + {it} := by
                  rw [← Multiset.coe_singleton, Multiset.coe_add]
                rw [hsplit1, hsplit2] at hE
                apply add_right_cancel (b := ({it} : Multiset QueueItem))
                calc ((runTrace ops ((queue_enqueue false q it).2, ins ++ [it], outs)).2.1
                        : Multiset QueueItem) + (outs : Multiset QueueItem)
                        + (contents q : Multiset QueueItem) + {it}
                    = ((runTrace ops ((queue_enqueue false q it).2, ins ++ [it], outs)).2.1
                        : Multiset QueueItem) + (outs : Multiset QueueItem)
                        + ((contents q : Multiset QueueItem) + {it}) := by abel
                  _ = (ins : Multiset QueueItem) + {it}
                        + ((runTrace ops ((queue_enqueue false q it).2, ins ++ [it], outs)).2.2
                            : Multiset QueueItem)
                        + (contents (runTrace ops ((queue_enqueue false q it).2, ins ++ [it], outs)).1
                            : Multiset QueueItem) := hE
                  _ = (ins : Multiset QueueItem)
                        + ((runTrace ops ((queue_enqueue false q it).2, ins ++ [it], outs)).2.2
                            : Multiset QueueItem)
                        + (contents (runTrace ops ((queue_enqueue false q it).2, ins ++ [it], outs)).1
                            : Multiset QueueItem) + {it} := by abel
      | deq f =>
          cases f with
          | true =>
              have hrun : runTrace (Op.deq true :: ops) (q, ins, outs)
                  = runTrace ops (q, ins, outs) := by
                show (match queue_dequeue true q with
                      | (.ok it, q2) => runTrace ops (q2, ins, outs ++ [it])
                      | (_, q2) => runTrace ops (q2, ins, outs))
                    = runTrace ops (q, ins, outs)
                rw [queue_dequeue_cancelled_eq]
              rw [hrun]
              exact ih q ins outs hq
          | false =>
              by_cases hempty : queue_is_empty q = true
              · have hrun : runTrace (Op.deq false :: ops) (q, ins, outs)
                    = runTrace ops (q, ins, outs) := by
                  show (match queue_dequeue false q with
                        | (.ok it, q2) => runTrace ops (q2, ins, outs ++ [it])
                        | (_, q2) => runTrace ops (q2, ins, outs))
                      = runTrace ops (q, ins, outs)
                  rw [queue_dequeue_blocked_eq q hempty]
                rw [hrun]
                exact ih q ins outs hq
              · have hpos : 0 < q.size := by
                  have h1 : ¬ q.size = 0 := by
                    intro hc
                    exact hempty (by simp [queue_is_empty, hc])
                  omega
                obtain ⟨j, hj, hok, hinv2, hcont2, _, _, _, _, _, _⟩ := dequeue_spec q hq hpos
                have hpair : queue_dequeue false q
                    = (DeqOutcome.ok ((contents q).getD j default), (queue_dequeue false q).2) :=
                  Prod.ext hok rfl
                have hrun : runTrace (Op.deq false :: ops) (q, ins, outs)
                    = runTrace ops ((queue_dequeue false q).2, ins,
                        outs ++ [(contents q).getD j default]) := by
                  show (match queue_dequeue false q with
                        | (.ok it, q2) => runTrace ops (q2, ins, outs ++ [it])
                        | (_, q2) => runTrace ops (q2, ins, outs))
                      = runTrace ops ((queue_dequeue false q).2, ins,
                          outs ++ [(contents q).getD j default])
                  rw [hpair]
                rw [hrun]
                obtain ⟨hI, hE⟩ := ih (queue_dequeue false q).2 ins
                  (outs ++ [(contents q).getD j default]) hinv2
                refine ⟨hI, ?_⟩
                have hqsplit : (contents q : Multiset QueueItem)
                    = {(contents q).getD j default}
                        + (contents (queue_dequeue false q).2 : Multiset QueueItem) := by
                  rw [hcont2, Multiset.singleton_add]
                  exact ofList_eraseIdx (contents q) j (by rw [contents_length]; omega)
                have hsplit2 : ((outs ++ [(contents q).getD j default] : List QueueItem)
                      : Multiset QueueItem)
                    = (outs : Multiset QueueItem) + {(contents q).getD j default} := by
                  rw [← Multiset.coe_singleton, Multiset.coe_add]
                rw [hsplit2] at hE
                rw [hqsplit]
                calc ((runTrace ops ((queue_dequeue false q).2, ins,
                          outs ++ [(contents q).getD j default])).2.1 : Multiset QueueItem)
                        + (outs : Multiset QueueItem)
                        + ({(contents q).getD j default}
                            + (contents (queue_dequeue false q).2 : Multiset QueueItem))
                    = ((runTrace ops ((queue_dequeue false q).2, ins,
                          outs ++ [(contents q).getD j default])).2.1 : Multiset QueueItem)
                        + ((outs : Multiset QueueItem) + {(contents q).getD j default})
                        + (contents (queue_dequeue false q).2 : Multiset QueueItem) := by abel
                  _ = (ins : Multiset QueueItem)
                        + ((runTrace ops ((queue_dequeue false q).2, ins,
                            outs ++ [(contents q).getD j default])).2.2 : Multiset QueueItem)
                        + (contents (runTrace ops ((queue_dequeue false q).2, ins,
                            outs ++ [(contents q).getD j default])).1 : Multiset QueueItem) := hE

/-! ### Claim theorems -/

/-- C1: for every non-empty queue state, dequeue selects the occupied slot
with the maximum priority key, and among slots tied for maximum priority
the earliest-arrived one (closest to the logical head); in particular,
inserting A(priority 3), B(priority 3), C(priority 5) into an empty queue
and removing three times yields C, A, B. -/
theorem C1_dequeue_selects_max_priority_earliest :
    (∀ q, QInv q → 0 < q.size →
      ∃ j, j < q.size ∧
        (queue_dequeue false q).1 = DeqOutcome.ok ((contents q).getD j default) ∧
        (∀ k, k < q.size → prAt q k ≤ prAt q j) ∧
        (∀ k, k < j → prAt q k < prAt q j)) ∧
    demoDequeues = [itemC, itemA, itemB] := by
  constructor
  · intro q hq hpos
    obtain ⟨j, hj, hok, _, _, _, _, hmax, hfirst, _, _⟩ := dequeue_spec q hq hpos
    exact ⟨j, hj, hok, hmax, hfirst⟩
  · decide

/-- Witness for C1 at the concrete state reached after inserting A, B, C. -/
theorem C1_witness :
    (QInv demoQ3 ∧ 0 < demoQ3.size) ∧
      (∃ j, j < demoQ3.size ∧
        (queue_dequeue false demoQ3).1 = DeqOutcome.ok ((contents demoQ3).getD j default) ∧
        (∀ k, k < demoQ3.size → prAt demoQ3 k ≤ prAt demoQ3 j) ∧
        (∀ k, k < j → prAt demoQ3 k < prAt demoQ3 j)) :=
  ⟨⟨by decide, by decide⟩,
    C1_dequeue_selects_max_priority_earliest.1 demoQ3 (by decide) (by decide)⟩

/-- C2: a successful dequeue removes exactly the selected logical position
from the arrival-ordered contents (so the relative order of the remaining
items is preserved); removal at the head advances the head pointer and
leaves the tail alone, removal elsewhere keeps the head, retreats the tail
and shrinks the occupancy by one. -/
theorem C2_removal_preserves_arrival_order :
    ∀ q, QInv q → 0 < q.size →
      ∃ j, j < q.size ∧
        (queue_dequeue false q).1 = DeqOutcome.ok ((contents q).getD j default) ∧
        contents (queue_dequeue false q).2 = (contents q).eraseIdx j ∧
        (queue_dequeue false q).2.size = q.size - 1 ∧
        (j = 0 → (queue_dequeue false q).2.head = (q.head + 1) % q.capacity ∧
                 (queue_dequeue false q).2.tail = q.tail) ∧
        (j ≠ 0 → (queue_dequeue false q).2.head = q.head ∧
                 (queue_dequeue false q).2.tail = ((q.tail + q.capacity) - 1) % q.capacity) := by
  intro q hq hpos
  obtain ⟨j, hj, hok, _, hcont, _, hsize, _, _, hhead0, hheadn⟩ := dequeue_spec q hq hpos
  exact ⟨j, hj, hok, hcont, hsize, hhead0, hheadn⟩

/-- Witness for C2 at a wrapped ring-buffer state. -/
theorem C2_witness :
    (QInv demoWrapped ∧ 0 < demoWrapped.size) ∧
      (∃ j, j < demoWrapped.size ∧
        (queue_dequeue false demoWrapped).1
          = DeqOutcome.ok ((contents demoWrapped).getD j default) ∧
        contents (queue_dequeue false demoWrapped).2 = (contents demoWrapped).eraseIdx j ∧
        (queue_dequeue false demoWrapped).2.size = demoWrapped.size - 1 ∧
        (j = 0 → (queue_dequeue false demoWrapped).2.head
                   = (demoWrapped.head + 1) % demoWrapped.capacity ∧
                 (queue_dequeue false demoWrapped).2.tail = demoWrapped.tail) ∧
        (j ≠ 0 → (queue_dequeue false demoWrapped).2.head = demoWrapped.head ∧
                 (queue_dequeue false demoWrapped).2.tail
                   = ((demoWrapped.tail + demoWrapped.capacity) - 1) % demoWrapped.capacity)) :=
  ⟨⟨by decide, by decide⟩,
    C2_removal_preserves_arrival_order demoWrapped (by decide) (by decide)⟩

/-- C5: with the cancellation flag set, both operations fail fast with the
cancelled outcome and return the queue state unchanged, so a cancelled
enqueue leaves the item with the caller and a cancelled dequeue removes
nothing. -/
theorem C5_cancelled_operations_fail_fast_without_change :
    ∀ (q : Queue) (item : QueueItem),
      queue_enqueue true q item = (EnqOutcome.cancelled, q) ∧
      queue_dequeue true q = (DeqOutcome.cancelled, q) :=
  fun q item => ⟨queue_enqueue_cancelled_eq q item, queue_dequeue_cancelled_eq q⟩

/-- C10: with the cancellation flag unset, a dequeue never reaches the
defensive `remove_idx == -1` error branch: on an empty queue it suspends
instead, and on a non-empty queue the priority scan returns a valid
occupied index. -/
theorem C10_defensive_error_branch_unreachable :
    ∀ q, QInv q →
      (queue_dequeue false q).1 ≠ DeqOutcome.err ∧
      (0 < q.size → find_highest_priority_index q ≠ -1) := by
  intro q hq
  constructor
  · by_cases hempty : queue_is_empty q = true
    · rw [queue_dequeue_blocked_eq q hempty]
      intro h
      exact DeqOutcome.noConfusion h
    · have hpos : 0 < q.size := by
        have h1 : ¬ q.size = 0 := by
          intro hc
          exact hempty (by simp [queue_is_empty, hc])
        omega
      obtain ⟨j, _, hok, _⟩ := dequeue_spec q hq hpos
      rw [hok]
      intro h
      exact DeqOutcome.noConfusion h
  · intro hpos
    obtain ⟨j, _, hfind, _, _⟩ := find_highest_spec q hq hpos
    rw [hfind]
    omega

/-- Witness for C10 at the concrete three-item state. -/
theorem C10_witness :
    QInv demoQ3 ∧
      ((queue_dequeue false demoQ3).1 ≠ DeqOutcome.err ∧
       (0 < demoQ3.size → find_highest_priority_index demoQ3 ≠ -1)) :=
  ⟨by decide, C10_defensive_error_branch_unreachable demoQ3 (by decide)⟩

/-- A queue successfully returned by `queue_init` is empty, has the
requested capacity, and satisfies the structural invariant. -/
theorem queue_init_some_spec (env : InitEnv) (c : Int) (q0 : Queue)
    (h : (queue_init env c).1 = some q0) :
    QInv q0 ∧ q0.size = 0 ∧ q0.capacity = c.toNat ∧ 0 < c := by
  unfold queue_init at h
  split_ifs at h with h1 h2 h3 h4 h5 h6
  simp only [Option.some.injEq] at h
  have hc : ¬ (c ≤ 0 ∨ 20 < c) := by
    intro hor
    exact h1 (by simp; omega)
  have hcpos : 0 < c := by omega
  have hcap : 0 < c.toNat := by omega
  subst h
  refine ⟨⟨by simp, by simpa using hcap, by simp, ?_⟩, rfl, rfl, hcpos⟩
  show (0 : Nat) = (0 + 0) % c.toNat
  simp

theorem contents_nil (q : Queue) (h : q.size = 0) : contents q = [] := by
  simp [contents, h]

/-- C3: starting from any queue `queue_init` returns, the occupancy count
never exceeds the capacity along any operation sequence (and is a natural
number, hence never negative); moreover a successful enqueue happens only
with `count < capacity` and adds exactly one, and a successful dequeue
happens only with `count > 0` and removes exactly one. -/
theorem C3_capacity_invariant :
    (∀ (env : InitEnv) (c : Int) (q0 : Queue), (queue_init env c).1 = some q0 →
      ∀ ops : List Op,
        (runQ q0 ops).size ≤ (runQ q0 ops).capacity ∧
        (runQ q0 ops).capacity = q0.capacity) ∧
    (∀ (flag : Bool) (q : Queue) (item : QueueItem), QInv q →
      (queue_enqueue flag q item).1 = EnqOutcome.ok →
        q.size < q.capacity ∧ (queue_enqueue flag q item).2.size = q.size + 1) ∧
    (∀ (flag : Bool) (q : Queue) (item : QueueItem), QInv q →
      (queue_dequeue flag q).1 = DeqOutcome.ok item →
        0 < q.size ∧ (queue_dequeue flag q).2.size = q.size - 1) := by
  refine ⟨?_, ?_, ?_⟩
  · intro env c q0 hinit ops
    obtain ⟨hq0, _, _, _⟩ := queue_init_some_spec env c q0 hinit
    obtain ⟨hI, hC⟩ := runQ_inv ops q0 hq0
    exact ⟨hI.2.2.1, hC⟩
  · intro flag q item hq hok
    cases flag with
    | true =>
        rw [queue_enqueue_cancelled_eq] at hok
        exact absurd hok (by simp)
    | false =>
        by_cases hfull : queue_is_full q = true
        · rw [queue_enqueue_blocked_eq q item hfull] at hok
          exact absurd hok (by simp)
        · have hsz : q.size < q.capacity := by
            have h1 : ¬ q.size = q.capacity := by
              intro hc
              exact hfull (by simp [queue_is_full, hc])
            have := hq.2.2.1
            omega
          obtain ⟨_, _, _, _, hsize, _⟩ := enqueue_spec q hq item hsz
          exact ⟨hsz, hsize⟩
  · intro flag q item hq hok
    cases flag with
    | true =>
        rw [queue_dequeue_cancelled_eq] at hok
        exact absurd hok (by simp)
    | false =>
        by_cases hempty : queue_is_empty q = true
        · rw [queue_dequeue_blocked_eq q hempty] at hok
          exact absurd hok (by simp)
        · have hpos : 0 < q.size := by
            have h1 : ¬ q.size = 0 := by
              intro hc
              exact hempty (by simp [queue_is_empty, hc])
            omega
          obtain ⟨j, _, _, _, _, _, hsize, _⟩ := dequeue_spec q hq hpos
          exact ⟨hpos, hsize⟩

/-- Witness for C3: capacity bound after a short run, and the two
single-step occupancy facts, at concrete inputs. -/
theorem C3_witness :
    ((runQ demoStart [Op.enq false itemA, Op.deq false]).size
        ≤ (runQ demoStart [Op.enq false itemA, Op.deq false]).capacity ∧
      (runQ demoStart [Op.enq false itemA, Op.deq false]).capacity = demoStart.capacity) ∧
    (demoStart.size < demoStart.capacity ∧
      (queue_enqueue false demoStart itemA).2.size = demoStart.size + 1) ∧
    (0 < demoQ3.size ∧ (queue_dequeue false demoQ3).2.size = demoQ3.size - 1) :=
  ⟨C3_capacity_invariant.1 noFailEnv 5 demoStart (by decide) [Op.enq false itemA, Op.deq false],
   C3_capacity_invariant.2.1 false demoStart itemA (by decide) (by decide),
   C3_capacity_invariant.2.2 false demoQ3 itemC (by decide) (by decide)⟩

/-- C4: for any interleaving of operations with the cancellation flag unset
throughout, starting from an empty queue and ending with an empty queue,
the multiset of items returned by successful dequeues equals the multiset
of items accepted by successful enqueues (in particular their counts
agree), so nothing is lost or duplicated. -/
theorem C4_no_loss_no_duplication :
    ∀ (ops : List Op) (q0 : Queue), QInv q0 → q0.size = 0 →
      (∀ op ∈ ops, op.flagOf = false) →
      (runTrace ops (q0, [], [])).1.size = 0 →
      ((runTrace ops (q0, [], [])).2.1 : Multiset QueueItem)
          = ((runTrace ops (q0, [], [])).2.2 : Multiset QueueItem) ∧
        (runTrace ops (q0, [], [])).2.1.length = (runTrace ops (q0, [], [])).2.2.length := by
  intro ops q0 hq0 hempty0 _ hemptyF
  obtain ⟨hI, hE⟩ := runTrace_conserves ops q0 [] [] hq0
  rw [contents_nil q0 hempty0, contents_nil _ hemptyF] at hE
  simp only [Multiset.coe_nil] at hE
  have hmeq : ((runTrace ops (q0, [], [])).2.1 : Multiset QueueItem)
      = ((runTrace ops (q0, [], [])).2.2 : Multiset QueueItem) := by
    have h1 := hE
    simpa using h1
  refine ⟨hmeq, ?_⟩
  have := congrArg Multiset.card hmeq
  simpa [Multiset.coe_card] using this

/-- Witness for C4: a run inserting A, C and removing twice, back to the
empty queue. -/
theorem C4_witness :
    (QInv demoStart ∧ demoStart.size = 0 ∧
      (∀ op ∈ [Op.enq false itemA, Op.enq false itemC, Op.deq false, Op.deq false],
        op.flagOf = false) ∧
      (runTrace [Op.enq false itemA, Op.enq false itemC, Op.deq false, Op.deq false]
        (demoStart, [], [])).1.size = 0) ∧
    ((runTrace [Op.enq false itemA, Op.enq false itemC, Op.deq false, Op.deq false]
        (demoStart, [], [])).2.1 : Multiset QueueItem)
      = ((runTrace [Op.enq false itemA, Op.enq false itemC, Op.deq false, Op.deq false]
          (demoStart, [], [])).2.2 : Multiset QueueItem) ∧
    (runTrace [Op.enq false itemA, Op.enq false itemC, Op.deq false, Op.deq false]
        (demoStart, [], [])).2.1.length
      = (runTrace [Op.enq false itemA, Op.enq false itemC, Op.deq false, Op.deq false]
          (demoStart, [], [])).2.2.length :=
  ⟨⟨by decide, by decide, by decide, by decide⟩,
    C4_no_loss_no_duplication
      [Op.enq false itemA, Op.enq false itemC, Op.deq false, Op.deq false]
      demoStart (by decide) (by decide) (by decide) (by decide)⟩

/-- Exactly when `queue_init` returns no queue: invalid capacity or a
resource-acquisition failure. -/
theorem queue_init_none_iff (env : InitEnv) (c : Int) :
    (queue_init env c).1 = none ↔
      (c ≤ 0 ∨ 20 < c ∨ env.allocQueueFails = true ∨ env.allocItemsFails = true ∨
        env.mutexInitFails = true ∨ env.condNotFullFails = true ∨
        env.condNotEmptyFails = true) := by
  unfold queue_init
  split_ifs with h1 h2 h3 h4 h5 h6 <;> simp_all
  tauto

/-- C6 counterexample: capacity 21 with every resource acquisition
succeeding is rejected by the queue constructor itself, so construction by
the queue does not succeed above the orchestration layer's bound. -/
theorem C6_counterexample_capacity_21_rejected :
    (queue_init noFailEnv 21).1 = none := by
  decide

/-- C6 (amended): the queue constructor itself enforces both bounds of the
capacity range: with no resource failure, construction succeeds exactly
when `1 ≤ capacity ≤ 20`; capacities above 20 (such as 21) are rejected by
the queue, not merely by the orchestration layer. -/
theorem C6_amended_queue_enforces_both_bounds :
    ∀ c : Int, (queue_init noFailEnv c).1 ≠ none ↔ (0 < c ∧ c ≤ 20) := by
  intro c
  rw [Ne, queue_init_none_iff]
  simp [noFailEnv]

/-- Witness for C6 (amended) at capacity 5. -/
theorem C6_witness :
    (queue_init noFailEnv 5).1 ≠ none :=
  (C6_amended_queue_enforces_both_bounds 5).mpr (by decide)

/-- C7: construction fails exactly when the capacity is out of range or a
resource acquisition fails; on failure the multiset of resources acquired
equals the multiset released (nothing leaks), and on success a fully
initialized queue is returned with nothing released. -/
theorem C7_construction_failure_behaviour :
    ∀ (env : InitEnv) (c : Int),
      ((queue_init env c).1 = none ↔
        (c ≤ 0 ∨ 20 < c ∨ env.allocQueueFails = true ∨ env.allocItemsFails = true ∨
          env.mutexInitFails = true ∨ env.condNotFullFails = true ∨
          env.condNotEmptyFails = true)) ∧
      ((queue_init env c).1 = none →
        Multiset.ofList (queue_init env c).2.1 = Multiset.ofList (queue_init env c).2.2) ∧
      (∀ q0, (queue_init env c).1 = some q0 →
        q0.capacity = c.toNat ∧ q0.size = 0 ∧ q0.head = 0 ∧ q0.tail = 0 ∧
          q0.items.length = c.toNat ∧ (queue_init env c).2.2 = []) := by
  intro env c
  refine ⟨queue_init_none_iff env c, ?_, ?_⟩
  · intro h
    rw [queue_init_none_iff] at h
    unfold queue_init
    split_ifs with g1 g2 g3 g4 g5 g6
    · decide
    · decide
    · decide
    · decide
    · decide
    · decide
    · exfalso
      rcases h with hA | hA | hA | hA | hA | hA | hA <;> simp_all
  · intro q0 h
    unfold queue_init at h
    split_ifs at h with g1 g2 g3 g4 g5 g6
    simp only [Option.some.injEq] at h
    subst h
    refine ⟨rfl, rfl, rfl, rfl, by simp, ?_⟩
    unfold queue_init
    rw [if_neg g1, if_neg g2, if_neg g3, if_neg g4, if_neg g5, if_neg g6]

/-- Witness for C7: a failed malloc releases everything acquired, and a
successful construction is fully initialized. -/
theorem C7_witness :
    Multiset.ofList (queue_init allocFailEnv 5).2.1
        = Multiset.ofList (queue_init allocFailEnv 5).2.2 ∧
      (demoStart.capacity = (5 : Int).toNat ∧ demoStart.size = 0 ∧ demoStart.head = 0 ∧
        demoStart.tail = 0 ∧ demoStart.items.length = (5 : Int).toNat ∧
        (queue_init noFailEnv 5).2.2 = []) :=
  ⟨(C7_construction_failure_behaviour allocFailEnv 5).2.1 (by decide),
   (C7_construction_failure_behaviour noFailEnv 5).2.2 demoStart (by decide)⟩

/-- C8 counterexample: the queue does print: constructing with the invalid
capacity 0 writes an error line to stderr, so the operations are not
print-free for every input. -/
theorem C8_counterexample_init_prints_on_invalid_capacity :
    queue_init_out false noFailEnv 0 ≠ [] := by
  decide

/-- C8 (amended): on their success paths, and with the compile-time debug
mode disabled, the queue operations print nothing: construction that
returns a queue, enqueue, dequeue, size and destroy are all silent; only
failed construction (invalid capacity or resource failure) and NULL-argument
calls write error diagnostics to stderr. -/
theorem C8_amended_silent_on_success_paths :
    (∀ (env : InitEnv) (c : Int) (q0 : Queue),
      (queue_init env c).1 = some q0 → queue_init_out false env c = []) ∧
    (∀ (flag : Bool) (q : Queue),
      queue_enqueue_out false flag q = [] ∧ queue_dequeue_out false flag q = []) ∧
    (∀ q : Queue, queue_get_size_out q = []) ∧
    queue_destroy_out false = [] := by
  refine ⟨?_, ?_, fun _ => rfl, rfl⟩
  · intro env c q0 h
    unfold queue_init at h
    split_ifs at h with g1 g2 g3 g4 g5 g6
    unfold queue_init_out
    rw [if_neg g1, if_neg g2, if_neg g3, if_neg g4, if_neg g5, if_neg g6]
    rfl
  · intro flag q
    constructor
    · unfold queue_enqueue_out
      split_ifs <;> simp_all
    · unfold queue_dequeue_out
      split_ifs <;> simp_all

/-- Witness for C8 (amended): a successful construction prints nothing. -/
theorem C8_witness :
    queue_init_out false noFailEnv 5 = [] :=
  C8_amended_silent_on_success_paths.1 noFailEnv 5 demoStart (by decide)

/-- C9: every enqueue and dequeue (whatever its outcome) preserves the
ring-buffer structural invariant: head and tail stay below the capacity
and the tail equals head plus occupancy modulo capacity, so the occupied
slots are exactly `head, head+1, ..., head+size-1` taken modulo capacity. -/
theorem C9_ring_buffer_invariant_preserved :
    ∀ q, QInv q → ∀ op : Op,
      QInv (stepQ q op) ∧
      (stepQ q op).head < (stepQ q op).capacity ∧
      (stepQ q op).tail < (stepQ q op).capacity ∧
      (stepQ q op).tail = ((stepQ q op).head + (stepQ q op).size) % (stepQ q op).capacity := by
  intro q hq op
  obtain ⟨hI, _⟩ := stepQ_inv q hq op
  have hcap : 0 < (stepQ q op).capacity := by
    have := hI.2.1
    omega
  exact ⟨hI, hI.2.1, by rw [hI.2.2.2]; exact Nat.mod_lt _ hcap, hI.2.2.2⟩

/-- Witness for C9: a dequeue on the wrapped four-item state keeps the
structural invariant. -/
theorem C9_witness :
    QInv demoWrapped ∧
      (QInv (stepQ demoWrapped (Op.deq false)) ∧
        (stepQ demoWrapped (Op.deq false)).head < (stepQ demoWrapped (Op.deq false)).capacity ∧
        (stepQ demoWrapped (Op.deq false)).tail < (stepQ demoWrapped (Op.deq false)).capacity ∧
        (stepQ demoWrapped (Op.deq false)).tail
          = ((stepQ demoWrapped (Op.deq false)).head + (stepQ demoWrapped (Op.deq false)).size)
              % (stepQ demoWrapped (Op.deq false)).capacity) :=
  ⟨by decide, C9_ring_buffer_invariant_preserved demoWrapped (by decide) (Op.deq false)⟩
